import Mathlib

/-!
Shallow embedding of the ivh-model library (class IvhModel in lib/index.js).

JavaScript objects are modelled as association lists of string keys and
values, with first-match lookup and overwrite-in-place-else-append update,
matching the own-property semantics the source relies on. Machine details
(prototype chains, property descriptors) play no role in the source and are
not modelled. The distinguished JS values undefined and null are explicit
constructors, so a key that is present with value undefined is
distinguishable from an absent key, exactly as hasOwnProperty distinguishes
them in the source.
-/

namespace IvhModel

/-- JS-like runtime values, restricted to the shapes the library manipulates:
undefined, null, booleans, numbers, strings and plain objects. -/
inductive JVal where
  | undefined : JVal
  | null : JVal
  | bool : Bool → JVal
  | num : Int → JVal
  | str : String → JVal
  | obj : List (String × JVal) → JVal

/-- First-match association lookup, the value stored under key `k`. -/
def lookupProp : List (String × JVal) → String → Option JVal
  | [], _ => none
  | (a, b) :: t, k => if a = k then some b else lookupProp t k

/-- Own-property test, modelling `hasOwnProperty`. -/
def hasKey : List (String × JVal) → String → Bool
  | [], _ => false
  | (a, _) :: t, k => a = k || hasKey t k

/-- Property assignment on an association list: overwrite the first entry
with the given key in place, or append a fresh entry, matching JS
own-property assignment order. -/
def setProps : List (String × JVal) → String → JVal → List (String × JVal)
  | [], k, v => [(k, v)]
  | (a, b) :: t, k, v => if a = k then (k, v) :: t else (a, b) :: setProps t k v

/-- Property read `v[k]`: on an object, the stored value or undefined when
the key is absent; on primitives the source never observes anything but
undefined for the accessed keys, so the embedding returns undefined. -/
def getProp : JVal → String → JVal
  | .obj props, k => (lookupProp props k).getD .undefined
  | _, _ => .undefined

/-- Property assignment `v[k] = x` as a functional update; assignment to a
primitive is a no-op in the embedding (the source never reaches that case in
the behaviours verified here). -/
def setProp : JVal → String → JVal → JVal
  | .obj props, k, v => .obj (setProps props k v)
  | o, _, _ => o

/-- JS test `null !== val && 'undefined' !== typeof val`, negated. -/
def isNullOrUndef : JVal → Bool
  | .null => true
  | .undefined => true
  | _ => false

/-- JS truthiness on the modelled values. -/
def isFalsy : JVal → Bool
  | .undefined => true
  | .null => true
  | .bool b => !b
  | .num n => n == 0
  | .str s => s == ""
  | .obj _ => false

/-- Numeric addition as used by the example convert functions; on anything
but two numbers the examples never rely on the result, so it is undefined. -/
def jvAdd : JVal → JVal → JVal
  | .num a, .num b => .num (a + b)
  | _, _ => .undefined

/-- Model instance: the retained raw constructor input `rawData` and the
flat attribute store `data`. -/
structure Model where
  rawData : JVal
  data : List (String × JVal)

/-- Accessor `get(fieldName)`, reading `this.data[fieldName]`. -/
def Model.get (m : Model) (fieldName : String) : JVal :=
  getProp (.obj m.data) fieldName

/-- Field configuration object. Option models presence of the own property
(hasOwnProperty), so a descriptor may carry defaultValue undefined and still
count as having a default. A convert function receives the raw constructor
input and the model as built so far. -/
structure FieldCfg where
  name : String
  mapping : Option String := none
  defaultValue : Option JVal := none
  convert : Option (JVal → Model → JVal) := none

/-- Entry of the declared field list: a bare name string or a configuration
object. -/
inductive FieldDecl where
  | strLit : String → FieldDecl
  | cfg : FieldCfg → FieldDecl

/-- Coercion step of normalizedFields: a string literal is interpreted as a
config object with that name. -/
def toCfg : FieldDecl → FieldCfg
  | .strLit s => { name := s }
  | .cfg f => f

/-- The JS expression `f.mapping || f.name`: an absent or empty (falsy)
mapping falls back to the name. -/
def normMapping (f : FieldCfg) : String :=
  match f.mapping with
  | some m => if m = "" then f.name else m
  | none => f.name

/-- Normalization of one declared field, mirroring the body of the
normalizedFields map. -/
def normalizeField (d : FieldDecl) : FieldCfg :=
  let f := toCfg d
  { f with mapping := some (normMapping f) }

/-- The static normalizedFields accessor over a declared field list. -/
def normalizedFields (fields : List FieldDecl) : List FieldCfg :=
  fields.map normalizeField

/-- Accumulator pass of the split of a string on the dot character. -/
def splitDotAux : List Char → List Char → List String
  | [], acc => [⟨acc.reverse⟩]
  | c :: rest, acc =>
      if c = '.' then ⟨acc.reverse⟩ :: splitDotAux rest []
      else splitDotAux rest (c :: acc)

/-- The JS expression `mapping.split('.')`: split on every dot, keeping
empty pieces (they are filtered out afterwards, as in the source). -/
def splitDot (s : String) : List String :=
  splitDotAux s.data []

/-- Mapping path of a normalized field, `split('.')` filtered to nonempty
segments; after normalization the mapping is always populated so the
fallback is never taken. -/
def fieldPath (f : FieldCfg) : List String :=
  (splitDot (f.mapping.getD f.name)).filter (fun s => s.length ≠ 0)

/-- One step of the mapped-phase walk: the guarded `val = val[attr]`. -/
def resolveStep (val : JVal) (attr : String) : JVal :=
  if isNullOrUndef val then val else getProp val attr

/-- The mapped-phase path walk over the split, nonempty segments. -/
def resolvePath : JVal → List String → JVal
  | v, [] => v
  | v, a :: rest => resolvePath (resolveStep v a) rest

/-- Default phase body: `data[f.name] = f.defaultValue`. -/
def defaultStep (d : List (String × JVal)) (f : FieldCfg) : List (String × JVal) :=
  setProps d f.name (f.defaultValue.getD .undefined)

/-- Default phase: every descriptor owning a defaultValue writes it. -/
def defaultPhase (fields : List FieldCfg) (d : List (String × JVal)) : List (String × JVal) :=
  (fields.filter (fun f => f.defaultValue.isSome)).foldl defaultStep d

/-- Mapped phase body: walk the mapping path from the raw input and write
the terminal value only when it is neither null nor undefined. -/
def mappedStep (opts : JVal) (d : List (String × JVal)) (f : FieldCfg) : List (String × JVal) :=
  let val := resolvePath opts (fieldPath f)
  if isNullOrUndef val then d else setProps d f.name val

/-- Mapped phase: every descriptor without a convert is resolved. -/
def mappedPhase (fields : List FieldCfg) (opts : JVal) (d : List (String × JVal)) :
    List (String × JVal) :=
  (fields.filter (fun f => f.convert.isNone)).foldl (mappedStep opts) d

/-- Application of a convert function to the raw input and the model so far. -/
def applyConvert (f : FieldCfg) (opts : JVal) (m : Model) : JVal :=
  match f.convert with
  | some cv => cv opts m
  | none => .undefined

/-- Computed phase body: `data[f.name] = f.convert(opts, this)`, where the
model passed to convert carries the raw input and the attributes written so
far. -/
def computedStep (opts : JVal) (d : List (String × JVal)) (f : FieldCfg) :
    List (String × JVal) :=
  setProps d f.name (applyConvert f opts ⟨opts, d⟩)

/-- Computed phase: every descriptor with a convert is invoked, in
declaration order. -/
def computedPhase (fields : List FieldCfg) (opts : JVal) (d : List (String × JVal)) :
    List (String × JVal) :=
  (fields.filter (fun f => f.convert.isSome)).foldl (computedStep opts) d

/-- Model class: the declared field list together with the overridable
static extract hook. The hook receives the in-progress extracted structure
and the model; its result is the pair of the structure after any in-place
mutation and the returned value (the source ignores the latter). The stub
default mutates nothing and returns undefined. -/
structure ModelClass where
  fields : List FieldDecl
  extractHook : JVal → Model → JVal × JVal := fun d _ => (d, .undefined)

/-- The constructor: three ordered phases over an initially empty store. -/
def hydrate (cls : ModelClass) (opts : JVal) : List (String × JVal) :=
  let fields := normalizedFields cls.fields
  computedPhase fields opts (mappedPhase fields opts (defaultPhase fields []))

/-- The create factory, `opts => new this(opts)`. -/
def ModelClass.create (cls : ModelClass) (opts : JVal) : Model :=
  { rawData := opts, data := hydrate cls opts }

/-- The set method: build a fresh instance from the retained raw input, then
replace its store with a shallow copy of the current store carrying the one
overwritten key. -/
def Model.set (cls : ModelClass) (m : Model) (fieldName : String) (newValue : JVal) : Model :=
  let newModel := cls.create m.rawData
  { newModel with data := setProps m.data fieldName newValue }

/-- The extract structural pass: for every non-convert field whose name is
present in the store, write the stored value into the output at the mapping
path, creating intermediate objects for falsy intermediates. -/
def writePath (base : JVal) (segs : List String) (leaf : JVal) : JVal :=
  match segs with
  | [] => base
  | [a] => setProp base a leaf
  | a :: rest =>
      let cur := getProp base a
      let next := if isFalsy cur then JVal.obj [] else cur
      setProp base a (writePath next rest leaf)

/-- Structural pass of extract over the normalized fields. -/
def extractStructural (fields : List FieldCfg) (m : Model) : JVal :=
  (((fields.filter (fun f => f.convert.isNone)).filter
      (fun f => hasKey m.data f.name))).foldl
    (fun acc f => writePath acc (fieldPath f) (m.get f.name)) (JVal.obj [])

/-- The extract method: run the structural pass, hand the result to the
static hook, and return the (possibly mutated) structure, ignoring the hook
return value. -/
def Model.extract (cls : ModelClass) (m : Model) : JVal :=
  let extractedData := extractStructural (normalizedFields cls.fields) m
  (cls.extractHook extractedData m).1

/-- Computed-phase step instrumented with the invocation trace: besides the
write it records the name of the descriptor whose convert function it
invokes. -/
def computedStepTraced (opts : JVal) (acc : List (String × JVal) × List String)
    (f : FieldCfg) : List (String × JVal) × List String :=
  (setProps acc.1 f.name (applyConvert f opts ⟨opts, acc.1⟩), acc.2 ++ [f.name])

/-- Computed phase instrumented with the list of convert invocations it
performs, in order. -/
def computedPhaseTraced (fields : List FieldCfg) (opts : JVal)
    (d : List (String × JVal)) : List (String × JVal) × List String :=
  (fields.filter (fun f => f.convert.isSome)).foldl (computedStepTraced opts) (d, [])

/-- The constructor, instrumented with the trace of convert invocations it
performs. -/
def hydrateTraced (cls : ModelClass) (opts : JVal) : List (String × JVal) × List String :=
  let fields := normalizedFields cls.fields
  computedPhaseTraced fields opts (mappedPhase fields opts (defaultPhase fields []))

/-- The create factory, instrumented with the convert-invocation trace of
the constructor run it performs. -/
def ModelClass.createTraced (cls : ModelClass) (opts : JVal) : Model × List String :=
  ((⟨opts, (hydrateTraced cls opts).1⟩ : Model), (hydrateTraced cls opts).2)

/-- The set method, instrumented with the trace of convert invocations
performed by the create call it embeds. -/
def Model.setTraced (cls : ModelClass) (m : Model) (fieldName : String)
    (newValue : JVal) : Model × List String :=
  let created := cls.createTraced m.rawData
  ({ created.1 with data := setProps m.data fieldName newValue }, created.2)

/-- Property read with the JS error behaviour explicit: reading a property
of null or undefined raises a TypeError, reading from any other value
yields the stored value or undefined. -/
def getPropE : JVal → String → Except String JVal
  | .null, _ => .error "TypeError"
  | .undefined, _ => .error "TypeError"
  | v, k => .ok (getProp v k)

/-- The mapped-phase walk with explicit error propagation: the guard in the
source skips the property read whenever the current value is null or
undefined, so the TypeError branch is provably never taken. -/
def resolvePathE : JVal → List String → Except String JVal
  | v, [] => .ok v
  | v, a :: rest =>
      if isNullOrUndef v then resolvePathE v rest
      else
        match getPropE v a with
        | .ok v2 => resolvePathE v2 rest
        | .error e => .error e

/-- Example model class of the spec: foo mapped, bar mapped from b.a.r,
wowza defaulting to 5, snapper computing foo + bar + wowza. -/
def cls1 : ModelClass := { fields := [
  .strLit "foo",
  .cfg { name := "bar", mapping := some "b.a.r" },
  .cfg { name := "wowza", defaultValue := some (.num 5) },
  .cfg { name := "snapper", convert := some (fun opts m =>
      jvAdd (jvAdd (getProp opts "foo") (m.get "bar")) (m.get "wowza")) }
] }

/-- Example raw input of the spec for cls1. -/
def inp1 : JVal := .obj [("foo", .num 1), ("b", .obj [("a", .obj [("r", .num 2)])])]

/-- Two computed fields in declaration order: cone is constant, ctwo copies
cone through get. -/
def cls1fwd : ModelClass := { fields := [
  .cfg { name := "cone", convert := some (fun _ _ => .num 10) },
  .cfg { name := "ctwo", convert := some (fun _ m => m.get "cone") }
] }

/-- The same two computed fields declared in the opposite order, so the
copying field runs first and reads an absent attribute. -/
def cls1rev : ModelClass := { fields := [
  .cfg { name := "ctwo", convert := some (fun _ m => m.get "cone") },
  .cfg { name := "cone", convert := some (fun _ _ => .num 10) }
] }

/-- Mapped field x over path a with default 7, probing the terminal-null
case. -/
def cls2 : ModelClass := { fields := [
  .cfg { name := "x", mapping := some "a", defaultValue := some (.num 7) }
] }

/-- Mapped field foo over path a.b.c, no default. -/
def cls3 : ModelClass := { fields := [
  .cfg { name := "foo", mapping := some "a.b.c" }
] }

/-- Mapped field foo over path a.b.c with default 7. -/
def cls3d : ModelClass := { fields := [
  .cfg { name := "foo", mapping := some "a.b.c", defaultValue := some (.num 7) }
] }

/-- Extract example class of the spec: foo mapped, bar mapped from
attributes.bar, wowza computed. -/
def cls4 : ModelClass := { fields := [
  .strLit "foo",
  .cfg { name := "bar", mapping := some "attributes.bar" },
  .cfg { name := "wowza", convert := some (fun _ m => jvAdd (m.get "foo") (m.get "bar")) }
] }

/-- Extract example raw input of the spec for cls4. -/
def inp4 : JVal := .obj [("foo", .num 1), ("attributes", .obj [("bar", .num 2)])]

/-- Setter example class of the spec tests: two plain mapped fields. -/
def cls5 : ModelClass := { fields := [.strLit "foo", .strLit "bar"] }

/-- Setter example instance over raw input with foo 1 and bar 2. -/
def m5 : Model := cls5.create (.obj [("foo", .num 1), ("bar", .num 2)])

/-- Never-set example class: single field x mapped from a.b.c. -/
def cls7 : ModelClass := { fields := [
  .cfg { name := "x", mapping := some "a.b.c" }
] }

/-- Normalization example list: a bare name and a full descriptor. -/
def decls8 : List FieldDecl := [
  .strLit "foo",
  .cfg { name := "bar", mapping := some "b.a.r", defaultValue := some (.num 2) }
]

/-- Present-with-undefined example class: single field x mapped from a.b. -/
def cls9 : ModelClass := { fields := [
  .cfg { name := "x", mapping := some "a.b" }
] }

/-- Present-with-undefined example instance, constructed from an empty
object so nothing is ever assigned during hydration. -/
def m9 : Model := cls9.create (.obj [])

/-- Custom-hook example field list: the single bare field a. -/
def decls10 : List FieldDecl := [.strLit "a"]

/-- Custom hook that mutates nothing and returns a replacement object, used
to show the returned value is ignored by extract. -/
def hook10 : JVal → Model → JVal × JVal :=
  fun d _ => (d, .obj [("hacked", .num 1)])

/-- Custom-hook example class carrying hook10. -/
def cls10 : ModelClass := { fields := decls10, extractHook := hook10 }

/-- Custom-hook example instance over raw input with a set to bar. -/
def m10 : Model := cls10.create (.obj [("a", .str "bar")])

/-! Helper lemmas about the association-list object model and the phase folds. -/

theorem lookup_setProps (d : List (String × JVal)) (k n : String) (v : JVal) :
    lookupProp (setProps d k v) n = if n = k then some v else lookupProp d n := by
  induction d with
  | nil =>
      by_cases h : k = n
      · subst h; simp [setProps, lookupProp]
      · simp [setProps, lookupProp, h, Ne.symm h]
  | cons p t ih =>
      obtain ⟨a, b⟩ := p
      by_cases hak : a = k
      · subst hak
        by_cases hn : a = n
        · subst hn; simp [setProps, lookupProp]
        · simp [setProps, lookupProp, hn, Ne.symm hn]
      · by_cases han : a = n
        · subst han
          simp [setProps, lookupProp, hak, Ne.symm hak]
        · simp [setProps, lookupProp, hak, han, ih]

theorem hasKey_setProps (d : List (String × JVal)) (k n : String) (v : JVal) :
    hasKey (setProps d k v) n = (hasKey d n || k = n) := by
  induction d with
  | nil => simp [setProps, hasKey]
  | cons p t ih =>
      obtain ⟨a, b⟩ := p
      simp only [setProps]
      by_cases hak : a = k
      · subst hak
        simp only [if_pos rfl, hasKey]
        by_cases hna : a = n <;> simp [hna]
      · rw [if_neg hak]
        simp only [hasKey, ih]
        by_cases han : a = n <;> simp [han, Bool.or_assoc]

theorem lookup_none_of_not_hasKey (d : List (String × JVal)) (n : String)
    (h : hasKey d n = false) : lookupProp d n = none := by
  induction d with
  | nil => rfl
  | cons p t ih =>
      obtain ⟨a, b⟩ := p
      simp only [hasKey, Bool.or_eq_false_iff] at h
      simp only [lookupProp]
      rw [if_neg (by simpa using h.1)]
      exact ih h.2

theorem foldl_preserve {α β : Type} (P : α → Prop) (step : α → β → α) :
    ∀ (l : List β) (init : α), P init →
      (∀ a f, f ∈ l → P a → P (step a f)) → P (l.foldl step init) := by
  intro l
  induction l with
  | nil => intro init h0 _; exact h0
  | cons f t ih =>
      intro init h0 hstep
      exact ih (step init f) (hstep init f (List.mem_cons_self f t) h0)
        (fun a g hg ha => hstep a g (List.mem_cons_of_mem f hg) ha)

theorem foldl_traced_fst (opts : JVal) :
    ∀ (l : List FieldCfg) (d : List (String × JVal)) (tr : List String),
      (l.foldl (computedStepTraced opts) (d, tr)).1 = l.foldl (computedStep opts) d := by
  intro l
  induction l with
  | nil => intro d tr; rfl
  | cons f t ih =>
      intro d tr
      simp only [List.foldl, computedStepTraced, computedStep]
      exact ih _ _

theorem computedPhaseTraced_fst (fields : List FieldCfg) (opts : JVal)
    (d : List (String × JVal)) :
    (computedPhaseTraced fields opts d).1 = computedPhase fields opts d :=
  foldl_traced_fst opts _ d []

theorem hydrateTraced_fst (cls : ModelClass) (opts : JVal) :
    (hydrateTraced cls opts).1 = hydrate cls opts :=
  computedPhaseTraced_fst _ _ _

theorem resolvePathE_ok : ∀ (segs : List String) (v : JVal),
    resolvePathE v segs = .ok (resolvePath v segs) := by
  intro segs
  induction segs with
  | nil => intro v; rfl
  | cons a rest ih =>
      intro v
      simp only [resolvePathE, resolvePath, resolveStep]
      by_cases h : isNullOrUndef v = true
      · simp [h, ih]
      · have hb : isNullOrUndef v = false := by simpa using h
        cases v <;> simp_all [isNullOrUndef, getPropE]


/-- Idempotence of one normalization step: re-normalizing an
already-normalized descriptor changes nothing (the JS assignment
mapping = mapping or name is repeat-safe). -/
theorem normalizeField_idem (d : FieldDecl) :
    normalizeField (.cfg (normalizeField d)) = normalizeField d := by
  cases d with
  | strLit s => simp [normalizeField, toCfg, normMapping, ite_self]
  | cfg f =>
      obtain ⟨fn, fm, fd, fc⟩ := f
      cases fm with
      | none => simp [normalizeField, toCfg, normMapping, ite_self]
      | some m =>
          by_cases hme : m = ""
          · subst hme
            simp [normalizeField, toCfg, normMapping, ite_self]
          · simp [normalizeField, toCfg, normMapping, hme]

/-- C1: hydration applies defaults, then mapped fields, then computed
fields, with every convert observing earlier writes through get and
computed descriptors running in declaration order. On the spec example
(foo mapped, bar mapped from b.a.r, wowza defaulting to 5, snapper adding
foo, bar and wowza) the input with foo 1 and b.a.r 2 yields snapper 8; a
computed field declared after another computed field sees its value through
get, while under the reversed declaration order it reads undefined. -/
theorem hydration_phases_and_computed_order :
    (cls1.create inp1).get "snapper" = .num 8 ∧
    (cls1.create inp1).get "foo" = .num 1 ∧
    (cls1.create inp1).get "bar" = .num 2 ∧
    (cls1.create inp1).get "wowza" = .num 5 ∧
    (cls1fwd.create (.obj [])).get "ctwo" = .num 10 ∧
    (cls1rev.create (.obj [])).get "ctwo" = .undefined :=
  ⟨rfl, rfl, rfl, rfl, rfl, rfl⟩

/-- C2 counterexample: with field x mapped to path a with default 7 and raw
input binding a to null, the walk resolves to a terminal null, yet the
attribute keeps the default 7 — the terminal null is not written, contrary
to the claim. -/
theorem terminal_null_not_written :
    resolvePath (.obj [("a", .null)])
        (fieldPath (normalizeField
          (.cfg { name := "x", mapping := some "a", defaultValue := some (.num 7) })))
        = .null ∧
    (cls2.create (.obj [("a", .null)])).get "x" = .num 7 ∧
    (cls2.create (.obj [("a", .null)])).get "x" ≠ .null :=
  ⟨rfl, rfl, fun h => nomatch h⟩

/-- C2 amended: during the mapped phase the terminal value is written,
overwriting any default, exactly when it is neither null nor undefined;
when the walk ends in null or undefined the store is left untouched.
Concretely, a resolvable non-null terminal overwrites the default 7 with 5.
-/
theorem mapped_write_requires_defined_nonnull (opts : JVal)
    (d : List (String × JVal)) (f : FieldCfg) :
    (isNullOrUndef (resolvePath opts (fieldPath f)) = false →
        lookupProp (mappedStep opts d f) f.name
          = some (resolvePath opts (fieldPath f))) ∧
    (isNullOrUndef (resolvePath opts (fieldPath f)) = true →
        mappedStep opts d f = d) ∧
    (cls2.create (.obj [("a", .num 5)])).get "x" = .num 5 := by
  refine ⟨?_, ?_, rfl⟩
  · intro h
    simp [mappedStep, h, lookup_setProps]
  · intro h
    simp [mappedStep, h]

/-- Witness for the amended C2 theorem at concrete inputs: a terminal 5
is written over the default, a terminal null leaves the store unchanged. -/
theorem mapped_write_requires_defined_nonnull_witness :
    lookupProp (mappedStep (.obj [("a", .num 5)]) [("x", .num 7)]
        (normalizeField
          (.cfg { name := "x", mapping := some "a", defaultValue := some (.num 7) })))
      "x" = some (.num 5) ∧
    mappedStep (.obj [("a", .null)]) [("x", .num 7)]
        (normalizeField
          (.cfg { name := "x", mapping := some "a", defaultValue := some (.num 7) }))
      = [("x", .num 7)] := by
  constructor
  · exact (mapped_write_requires_defined_nonnull (.obj [("a", .num 5)])
      [("x", .num 7)] _).1 (by rfl)
  · exact (mapped_write_requires_defined_nonnull (.obj [("a", .null)])
      [("x", .num 7)] _).2.1 (by rfl)

/-- C3: resolving a mapped path through a null or absent intermediate value
raises no error — the guarded walk agrees everywhere with the total walk
and never reaches the TypeError branch — and concretely, mapping a.b.c
against a raw input binding a to null leaves the field without a key (get
yields undefined), or at its default when one is declared. -/
theorem null_path_resolution_is_safe :
    (∀ (v : JVal) (segs : List String),
        resolvePathE v segs = Except.ok (resolvePath v segs)) ∧
    hasKey (hydrate cls3 (.obj [("a", .null)])) "foo" = false ∧
    (cls3.create (.obj [("a", .null)])).get "foo" = .undefined ∧
    (cls3d.create (.obj [("a", .null)])).get "foo" = .num 7 :=
  ⟨fun v segs => resolvePathE_ok segs v, rfl, rfl, rfl⟩

/-- C4: extract on an untouched instance rebuilds the mapped-field shape of
the raw input, computed fields are excluded even though present in the
attribute store, and after set the extraction carries the updated value at
the mapping path. -/
theorem extract_round_trip :
    Model.extract cls4 (cls4.create inp4) = inp4 ∧
    (∀ v : JVal, Model.extract cls4 (Model.set cls4 (cls4.create inp4) "bar" v)
        = .obj [("foo", .num 1), ("attributes", .obj [("bar", v)])]) ∧
    getProp (getProp (Model.extract cls4
        (Model.set cls4 (cls4.create inp4) "bar" (.num 9))) "attributes") "bar"
      = .num 9 ∧
    (cls4.create inp4).get "wowza" = .num 3 ∧
    getProp (Model.extract cls4 (cls4.create inp4)) "wowza" = .undefined :=
  ⟨rfl, fun _ => rfl, rfl, rfl, rfl⟩

/-- C5: set is copy-on-write — the new instance keeps the original raw
input, holds the new value under the written name, agrees with the original
store on every other key (values and key presence), and chained sets
compose; the original store is untouched by construction since set only
builds new structures. -/
theorem set_copy_on_write (cls : ModelClass) (m : Model) (x y : String)
    (v1 v2 : JVal) :
    (Model.set cls m x v1).rawData = m.rawData ∧
    (Model.set cls m x v1).data = setProps m.data x v1 ∧
    (Model.set cls m x v1).get x = v1 ∧
    (∀ k, k ≠ x → (Model.set cls m x v1).get k = m.get k ∧
        lookupProp (Model.set cls m x v1).data k = lookupProp m.data k ∧
        hasKey (Model.set cls m x v1).data k = hasKey m.data k) ∧
    (Model.set cls (Model.set cls m x v1) y v2).get y = v2 ∧
    (y ≠ x → (Model.set cls (Model.set cls m x v1) y v2).get x = v1) := by
  refine ⟨rfl, rfl, ?_, ?_, ?_, ?_⟩
  · simp [Model.set, Model.get, getProp, lookup_setProps]
  · intro k hk
    refine ⟨?_, ?_, ?_⟩
    · simp [Model.set, Model.get, getProp, lookup_setProps, hk]
    · simp [Model.set, lookup_setProps, hk]
    · have hxk : ¬ (x = k) := fun hh => hk hh.symm
      simp [Model.set, hasKey_setProps, hxk]
  · simp [Model.set, Model.get, getProp, lookup_setProps]
  · intro hyx
    have hxy : ¬ (x = y) := fun hh => hyx hh.symm
    simp [Model.set, Model.get, getProp, lookup_setProps, hxy]

/-- Witness for the C5 theorem at concrete inputs: setting foo leaves bar
readable unchanged, chained sets yield both updates, and the original still
reads its constructed value. -/
theorem set_copy_on_write_witness :
    (Model.set cls5 m5 "foo" (.num 5)).get "bar" = m5.get "bar" ∧
    (Model.set cls5 (Model.set cls5 m5 "foo" (.num 5)) "bar" (.num 10)).get "bar"
      = .num 10 ∧
    (Model.set cls5 (Model.set cls5 m5 "foo" (.num 5)) "bar" (.num 10)).get "foo"
      = .num 5 ∧
    m5.get "foo" = .num 1 := by
  have h := set_copy_on_write cls5 m5 "foo" "bar" (.num 5) (.num 10)
  exact ⟨(h.2.2.2.1 "bar" (by decide)).1, h.2.2.2.2.1, h.2.2.2.2.2 (by decide), rfl⟩

/-- C6 counterexample: setting the computed field snapper performs a convert
invocation — the set call re-runs the constructor on the retained raw
input, and the trace of convert invocations during that call is the
nonempty list containing snapper. -/
theorem set_reinvokes_convert :
    (Model.setTraced cls1 (cls1.create inp1) "snapper" (.num 42)).2
      = ["snapper"] ∧
    (["snapper"] : List String) ≠ [] ∧
    (Model.setTraced cls1 (cls1.create inp1) "snapper" (.num 42)).1.get "snapper"
      = .num 42 :=
  ⟨rfl, by decide, rfl⟩

/-- C6 amended: set on any field, computed ones included, overrides the
value directly in the returned instance; the convert invocations performed
by the embedded constructor re-run are discarded, so the instrumented and
plain set agree on the resulting instance. -/
theorem set_overrides_computed (cls : ModelClass) (m : Model)
    (fieldName : String) (v : JVal) :
    (Model.set cls m fieldName v).get fieldName = v ∧
    (Model.setTraced cls m fieldName v).1 = Model.set cls m fieldName v := by
  refine ⟨?_, rfl⟩
  simp [Model.set, Model.get, getProp, lookup_setProps]

/-- C7: a field name for which every declared descriptor carries no
default, no convert and a mapping that resolves to null or undefined is
never assigned: the attribute store has no key for it and get yields
undefined. Concretely, the class with the single never-resolvable field x
extracts to the empty object — no placeholder path is produced. -/
theorem unset_fields_are_absent (cls : ModelClass) (opts : JVal) (n : String)
    (h : ∀ f ∈ normalizedFields cls.fields, f.name = n →
        f.defaultValue.isNone = true ∧ f.convert.isNone = true ∧
        isNullOrUndef (resolvePath opts (fieldPath f)) = true) :
    (hasKey (hydrate cls opts) n = false ∧ (cls.create opts).get n = .undefined) ∧
    (Model.extract cls7 (cls7.create (.obj [])) = .obj [] ∧
      hasKey (cls7.create (.obj [])).data "x" = false) := by
  have key : hasKey (hydrate cls opts) n = false := by
    unfold hydrate computedPhase mappedPhase defaultPhase
    apply foldl_preserve (fun d => hasKey d n = false)
    · apply foldl_preserve (fun d => hasKey d n = false)
      · apply foldl_preserve (fun d => hasKey d n = false)
        · rfl
        · intro d f hf hd
          have hf2 := List.mem_filter.mp hf
          have hname : f.name ≠ n := by
            intro he
            have h1 := (h f hf2.1 he).1
            have hs := hf2.2
            rw [Option.isNone_iff_eq_none] at h1
            simp [h1] at hs
          simp [defaultStep, hasKey_setProps, hname, hd]
      · intro d f hf hd
        have hf2 := List.mem_filter.mp hf
        by_cases he : f.name = n
        · have h3 := (h f hf2.1 he).2.2
          simp [mappedStep, h3, hd]
        · by_cases hw : isNullOrUndef (resolvePath opts (fieldPath f)) = true
          · simp [mappedStep, hw, hd]
          · simp only [mappedStep]
            rw [if_neg hw]
            simp [hasKey_setProps, he, hd]
    · intro d f hf hd
      have hf2 := List.mem_filter.mp hf
      have hname : f.name ≠ n := by
        intro he
        have h1 := (h f hf2.1 he).2.1
        have hs := hf2.2
        rw [Option.isNone_iff_eq_none] at h1
        simp [h1] at hs
      simp [computedStep, hasKey_setProps, hname, hd]
  refine ⟨⟨key, ?_⟩, rfl, rfl⟩
  simp [ModelClass.create, Model.get, getProp, lookup_none_of_not_hasKey _ _ key]

/-- Witness for the C7 theorem: for the class with field x mapped to a.b.c
and an empty raw input, the hypotheses hold and x is absent from the store
with get returning undefined. -/
theorem unset_fields_are_absent_witness :
    hasKey (hydrate cls7 (.obj [])) "x" = false ∧
    (cls7.create (.obj [])).get "x" = .undefined := by
  have h := unset_fields_are_absent cls7 (.obj []) "x" (by decide)
  exact ⟨h.1.1, h.1.2⟩

/-- C8: normalization over the two documented shapes yields descriptors
with name and mapping populated, preserving defaultValue and convert, and
it is idempotent: running the normalization map again over its own output
gives the same canonical list. -/
theorem normalization_canonical_idempotent (l : List FieldDecl) :
    ((normalizedFields l).map (fun f => normalizeField (.cfg f))
        = normalizedFields l) ∧
    (∀ f ∈ normalizedFields l, f.mapping.isSome = true) ∧
    (∀ d ∈ l, (normalizeField d).name = (toCfg d).name ∧
        (normalizeField d).defaultValue = (toCfg d).defaultValue ∧
        (normalizeField d).convert = (toCfg d).convert ∧
        (normalizeField d).mapping = some (normMapping (toCfg d))) := by
  refine ⟨?_, ?_, ?_⟩
  · induction l with
    | nil => rfl
    | cons d t ih =>
        simp only [normalizedFields, List.map] at *
        rw [normalizeField_idem]
        simp [ih]
  · intro f hf
    obtain ⟨d, hd, rfl⟩ := List.mem_map.mp hf
    rfl
  · intro d hd
    exact ⟨rfl, rfl, rfl, rfl⟩

/-- Witness for the C8 theorem on the example declared list: the normalized
bare string keeps its name, has its mapping populated with the name, and
re-normalizing the normalized descriptor is the identity. -/
theorem normalization_canonical_idempotent_witness :
    (normalizeField (FieldDecl.strLit "foo")).mapping.isSome = true ∧
    (normalizeField (FieldDecl.strLit "foo")).name = "foo" ∧
    (normalizeField
        (FieldDecl.cfg { name := "bar", mapping := some "b.a.r", defaultValue := some (.num 2) })).defaultValue
      = some (.num 2) := by
  have h := normalization_canonical_idempotent decls8
  refine ⟨h.2.1 (normalizeField (.strLit "foo")) (by simp [normalizedFields, decls8]), ?_, ?_⟩
  · exact ((h.2.2 (.strLit "foo") (by simp [decls8])).1).trans rfl
  · exact ((h.2.2
      (.cfg { name := "bar", mapping := some "b.a.r", defaultValue := some (.num 2) })
      (by simp [decls8])).2.1).trans rfl

/-- C9: set with the value undefined marks the field as set — the key is
present in the new store and get reads undefined — and a subsequent extract
writes the mapping path with terminal undefined, unlike a never-set field,
which produces no path at all. -/
theorem set_undefined_marks_field_set (cls : ModelClass) (m : Model)
    (fieldName : String) :
    hasKey (Model.set cls m fieldName .undefined).data fieldName = true ∧
    (Model.set cls m fieldName .undefined).get fieldName = .undefined ∧
    (hasKey m9.data "x" = false ∧ Model.extract cls9 m9 = .obj []) ∧
    Model.extract cls9 (Model.set cls9 m9 "x" .undefined)
      = .obj [("a", .obj [("b", .undefined)])] := by
  refine ⟨?_, ?_, ⟨rfl, rfl⟩, rfl⟩
  · simp [Model.set, hasKey_setProps]
  · simp [Model.set, Model.get, getProp, lookup_setProps]

/-- C10: extract returns exactly the structure built by the structural pass
as transformed in place by the static hook, ignoring the hook return value:
two hooks with the same in-place effect extract identically, and a hook
that mutates nothing — whatever it returns — leaves the structural result
untouched. -/
theorem extract_ignores_hook_return (fields : List FieldDecl)
    (h1 h2 : JVal → Model → JVal × JVal) (m : Model) :
    ((∀ d mm, (h1 d mm).1 = (h2 d mm).1) →
        Model.extract ⟨fields, h1⟩ m = Model.extract ⟨fields, h2⟩ m) ∧
    ((∀ d mm, (h1 d mm).1 = d) →
        Model.extract ⟨fields, h1⟩ m
          = extractStructural (normalizedFields fields) m) := by
  constructor
  · intro hh
    simp [Model.extract, hh]
  · intro hh
    simp [Model.extract, hh]

/-- Witness for the C10 theorem: the hook that returns a replacement object
without mutating its argument has no effect — extract still returns the
structural pass result. -/
theorem extract_ignores_hook_return_witness :
    Model.extract cls10 m10 = .obj [("a", .str "bar")] ∧
    (hook10 (.obj [("a", .str "bar")]) m10).2 = .obj [("hacked", .num 1)] := by
  have h := (extract_ignores_hook_return decls10 hook10 hook10 m10).2
    (fun d mm => rfl)
  exact ⟨h.trans rfl, rfl⟩

end IvhModel
